import Mathlib

/-!
Verification of the lenient JSON-recovery pipeline of `1_response_to_json.py`
(class `EnhancedJSONParser`).  Python strings are modelled as `List Char`;
Python values (the results of `json.loads` / `ast.literal_eval`) as `PyVal`.
Each definition is a shallow embedding of the correspondingly named Python
function; regular-expression substitutions are embedded as deterministic
scanners that reproduce the (backtracking-free, as analysed per pattern)
behaviour of `re.sub` / `re.findall` for the concrete patterns in the source.
-/

/-- Opening brace character (kept symbolic throughout). -/
def obrace : Char := Char.ofNat 123

/-- Closing brace character. -/
def cbrace : Char := Char.ofNat 125

/-- Opening square bracket. -/
def osq : Char := Char.ofNat 91

/-- Closing square bracket. -/
def csq : Char := Char.ofNat 93

/-- Double-quote character. -/
def dq : Char := Char.ofNat 34

/-- Single-quote (apostrophe) character. -/
def squo : Char := Char.ofNat 39

/-- Backslash character. -/
def bslash : Char := Char.ofNat 92

/-- Backtick character. -/
def btick : Char := Char.ofNat 96

/-- Python/regex whitespace class `\s` restricted to ASCII
(space, tab, newline, carriage return, vertical tab, form feed);
also the character set removed by `str.strip()`. -/
def isPyWs (c : Char) : Bool :=
  c = ' ' || c = Char.ofNat 9 || c = Char.ofNat 10 || c = Char.ofNat 13 ||
  c = Char.ofNat 11 || c = Char.ofNat 12

/-- ASCII decimal digit, the regex class `\d`. -/
def isDigitChar (c : Char) : Bool :=
  48 ≤ c.toNat && c.toNat ≤ 57

/-- ASCII word character, the regex class `\w` (letters, digits, underscore). -/
def isWordChar (c : Char) : Bool :=
  (65 ≤ c.toNat && c.toNat ≤ 90) || (97 ≤ c.toNat && c.toNat ≤ 122) ||
  isDigitChar c || c = '_'

/-- ASCII letter (used to state which identifier-like heads the lenient
decoder rejects). -/
def isAsciiLetter (c : Char) : Bool :=
  (65 ≤ c.toNat && c.toNat ≤ 90) || (97 ≤ c.toNat && c.toNat ≤ 122)

/-- `str.lower()` restricted to ASCII. -/
def pyLower (s : List Char) : List Char :=
  s.map (fun c => if 65 ≤ c.toNat && c.toNat ≤ 90 then Char.ofNat (c.toNat + 32) else c)

/-- Does `pre` occur at the start of `l`?  (Embedding of anchored literal match.) -/
def listStarts : List Char → List Char → Bool
  | [], _ => true
  | _ :: _, [] => false
  | p :: ps, c :: cs => p = c && listStarts ps cs

/-- Python's `needle in hay` substring test. -/
def containsSub (needle : List Char) : List Char → Bool
  | [] => needle.isEmpty
  | c :: cs => listStarts needle (c :: cs) || containsSub needle cs

/-- Remove trailing characters satisfying `isPyWs` (structural version,
avoiding `reverse` so that idempotence is provable by plain induction). -/
def trimEnd : List Char → List Char
  | [] => []
  | c :: r =>
    match trimEnd r with
    | [] => if isPyWs c then [] else [c]
    | t => c :: t

/-- Python's `str.strip()`: drop leading and trailing whitespace. -/
def pyStrip (l : List Char) : List Char :=
  trimEnd (l.dropWhile isPyWs)

/-- Python values as produced by `json.loads` and `ast.literal_eval`.
Floats are carried as their source literal (no floating-point semantics are
needed by any claim); dictionaries are insertion-ordered key/value lists. -/
inductive PyVal where
  | pynone : PyVal
  | pybool : Bool → PyVal
  | pyint : Int → PyVal
  | pyfloat : List Char → PyVal
  | pystr : List Char → PyVal
  | pylist : List PyVal → PyVal
  | pytuple : List PyVal → PyVal
  | pyset : List PyVal → PyVal
  | pydict : List (PyVal × PyVal) → PyVal

mutual

/-- Structural equality on `PyVal`, modelling Python `==` on the values the
pipeline can produce (used for dictionary-key lookup in `dict` update). -/
def pyBeq : PyVal → PyVal → Bool
  | .pynone, .pynone => true
  | .pybool a, .pybool b => a == b
  | .pyint a, .pyint b => a == b
  | .pyfloat a, .pyfloat b => a == b
  | .pystr a, .pystr b => a == b
  | .pylist a, .pylist b => pyBeqList a b
  | .pytuple a, .pytuple b => pyBeqList a b
  | .pyset a, .pyset b => pyBeqList a b
  | .pydict a, .pydict b => pyBeqKVs a b
  | _, _ => false

/-- Elementwise `pyBeq` on lists. -/
def pyBeqList : List PyVal → List PyVal → Bool
  | [], [] => true
  | x :: xs, y :: ys => pyBeq x y && pyBeqList xs ys
  | _, _ => false

/-- Elementwise `pyBeq` on key/value lists. -/
def pyBeqKVs : List (PyVal × PyVal) → List (PyVal × PyVal) → Bool
  | [], [] => true
  | (k, v) :: xs, (k2, v2) :: ys => pyBeq k k2 && pyBeq v v2 && pyBeqKVs xs ys
  | _, _ => false

end

/-- Python truthiness (`if parsed:`): `None`/`False`/zero/empty are falsy.
A float is falsy exactly when its value is `0.0`; on the carried literal
that is the case exactly when every mantissa digit (the digits before any
`e`/`E` exponent marker) is `0` — e.g. `0e1`, `-0.0` and `0.00e5` are
falsy, `0.5` and `1e-5` truthy.  (Literals whose nonzero decimal value
underflows double precision to `0.0`, i.e. magnitudes below roughly
`1e-324`, are floating-point rounding behaviour and are outside the
modelled range.) -/
def truthy : PyVal → Bool
  | .pynone => false
  | .pybool b => b
  | .pyint n => !(n == 0)
  | .pyfloat lit =>
    (lit.takeWhile (fun c => !(c = 'e') && !(c = 'E'))).any
      (fun c => isDigitChar c && !(c = '0'))
  | .pystr s => !s.isEmpty
  | .pylist xs => !xs.isEmpty
  | .pytuple xs => !xs.isEmpty
  | .pyset xs => !xs.isEmpty
  | .pydict kvs => !kvs.isEmpty

/-! ### Sanitizer: `clean_json_string`

Each `re.sub` of the source is embedded as a left-to-right scanner.  For each
concrete pattern the regex engine's behaviour is deterministic (the analysis
is given on each rule); `fuel` only bounds recursion and is instantiated with
the input length, which every rule strictly decreases per step. -/

/-- The literal `(three backticks)json` matched by the fence-opening rule. -/
def fenceJson : List Char := [btick, btick, btick, 'j', 's', 'o', 'n']

/-- Three backticks, matched by the fence-closing rule. -/
def fence3 : List Char := [btick, btick, btick]

/-- `re.sub(r'(three backticks)json\s*', '', text)`: delete every occurrence of
the opening fence together with the (greedy) whitespace after it. -/
def stripFenceOpen : Nat → List Char → List Char
  | 0, l => l
  | _, [] => []
  | f + 1, c :: r =>
    if listStarts fenceJson (c :: r) then
      stripFenceOpen f (((c :: r).drop 7).dropWhile isPyWs)
    else
      c :: stripFenceOpen f r

/-- `re.sub(r'(three backticks)\s*$', '', text)` (no MULTILINE): `$` only
matches at the end of the string (or before a lone final newline, which the
greedy `\s*` otherwise swallows), so the rule deletes a fence that is
followed by nothing but whitespace up to the end of the input. -/
def stripFenceClose : Nat → List Char → List Char
  | 0, l => l
  | _, [] => []
  | f + 1, c :: r =>
    if listStarts fence3 (c :: r) && ((c :: r).drop 3).all isPyWs then []
    else c :: stripFenceClose f r

/-- `re.sub(r'//.*$', '', text, flags=re.MULTILINE)`: on each line, delete
from the first `//` to the end of that line (`.` does not cross newlines). -/
def stripLineComments : Nat → List Char → List Char
  | 0, l => l
  | _, [] => []
  | f + 1, c :: r =>
    if c = '/' then
      match r with
      | c2 :: r2 =>
        if c2 = '/' then
          stripLineComments f (r2.dropWhile (fun d => !(d = Char.ofNat 10)))
        else c :: stripLineComments f r
      | [] => [c]
    else c :: stripLineComments f r

/-- `re.sub(r'(\d+)\s*\([^)]*\)', r'\1', text)`: a digit run, optional
whitespace, then a parenthesised annotation without `)` inside, replaced by
the digit run alone.  When the tail after the digits is not `( ... )` no
shorter digit run can match either (the follow-up character is a digit), so
the scanner advances one character exactly as the regex engine does. -/
def stripNumAnnots : Nat → List Char → List Char
  | 0, l => l
  | _, [] => []
  | f + 1, c :: r =>
    if isDigitChar c then
      let run := c :: r.takeWhile isDigitChar
      let afterWs := (r.dropWhile isDigitChar).dropWhile isPyWs
      match afterWs with
      | c2 :: r2 =>
        if c2 = '(' then
          match r2.dropWhile (fun d => !(d = ')')) with
          | _ :: r3 => run ++ stripNumAnnots f r3
          | [] => c :: stripNumAnnots f r
        else c :: stripNumAnnots f r
      | [] => c :: stripNumAnnots f r
    else c :: stripNumAnnots f r

/-- `re.sub(r'(\w+):', r'"\1":', text)`: a maximal word-character run
immediately followed by a colon is wrapped in double quotes (shorter runs
cannot match, their follow-up character is a word character). -/
def quoteKeysF : Nat → List Char → List Char
  | 0, l => l
  | _, [] => []
  | f + 1, c :: r =>
    if isWordChar c then
      let run := c :: r.takeWhile isWordChar
      match r.dropWhile isWordChar with
      | c2 :: r2 =>
        if c2 = ':' then dq :: run ++ dq :: ':' :: quoteKeysF f r2
        else c :: quoteKeysF f r
      | [] => c :: quoteKeysF f r
    else c :: quoteKeysF f r

/-- The bare-key quoting rule of `clean_json_string` as a standalone step. -/
def quoteKeys (l : List Char) : List Char :=
  quoteKeysF (l.length + 1) l

/-- `re.sub(r',\s*X', 'X', text)` for a closing delimiter `X`
(`}` resp. `]`): remove a comma followed by whitespace and `X`. -/
def dropTrailingCommas (close : Char) : Nat → List Char → List Char
  | 0, l => l
  | _, [] => []
  | f + 1, c :: r =>
    if c = ',' then
      match r.dropWhile isPyWs with
      | c2 :: r2 =>
        if c2 = close then close :: dropTrailingCommas close f r2
        else c :: dropTrailingCommas close f r
      | [] => c :: dropTrailingCommas close f r
    else c :: dropTrailingCommas close f r

/-- `EnhancedJSONParser.clean_json_string`: the six sanitation rules applied
in source order, ending with `str.strip()`. -/
def clean_json_string (t : List Char) : List Char :=
  let t1 := stripFenceOpen (t.length + 1) t
  let t2 := stripFenceClose (t1.length + 1) t1
  let t3 := stripLineComments (t2.length + 1) t2
  let t4 := stripNumAnnots (t3.length + 1) t3
  let t5 := quoteKeys t4
  let t6 := dropTrailingCommas cbrace (t5.length + 1) t5
  let t7 := dropTrailingCommas csq (t6.length + 1) t6
  pyStrip t7

/-! ### Block locator: `extract_json_blocks`

The source uses three `re.findall` calls:
method 1 `\{[^{}]*(?:\{[^{}]*\}[^{}]*)*\}` (objects, one nesting level),
method 2 the same pattern with square brackets (arrays), and
method 3 the lazy `\{.*?\}` with DOTALL.  For the first two patterns,
matching at a given start position is deterministic: the character classes
exclude the delimiters, so the only structure the engine can accept from an
opening delimiter is `op chunk (op chunk cl chunk)* cl` with delimiter-free
chunks, and backtracking cannot produce an alternative.  `matchDelim` embeds
one such match attempt, `findallDelimF` the leftmost non-overlapping scan. -/

/-- Characters allowed by the inner class `[^{}]` (resp. `[^\[\]]`). -/
def nonDelim (op cl c : Char) : Bool :=
  !(c = op) && !(c = cl)

/-- Parse the regex suffix `(?:op[^..]*cl[^..]*)*cl` starting at a delimiter,
returning the consumed characters and the remainder. -/
def delimTail (op cl : Char) : Nat → List Char → Option (List Char × List Char)
  | 0, _ => none
  | f + 1, l =>
    match l with
    | [] => none
    | c :: r =>
      if c = cl then some ([cl], r)
      else if c = op then
        let mid := r.takeWhile (nonDelim op cl)
        match r.dropWhile (nonDelim op cl) with
        | c2 :: r2 =>
          if c2 = cl then
            let post := r2.takeWhile (nonDelim op cl)
            match delimTail op cl f (r2.dropWhile (nonDelim op cl)) with
            | some (t, rest) => some (op :: mid ++ cl :: post ++ t, rest)
            | none => none
          else none
        | [] => none
      else none

/-- One anchored match attempt of the method-1/2 pattern at the head of `l`. -/
def matchDelim (op cl : Char) (l : List Char) : Option (List Char × List Char) :=
  match l with
  | c :: r =>
    if c = op then
      let pre := r.takeWhile (nonDelim op cl)
      match delimTail op cl l.length (r.dropWhile (nonDelim op cl)) with
      | some (t, rest) => some (op :: pre ++ t, rest)
      | none => none
    else none
  | [] => none

/-- `re.findall` of the method-1/2 pattern: leftmost, non-overlapping. -/
def findallDelimF (op cl : Char) : Nat → List Char → List (List Char)
  | 0, _ => []
  | _, [] => []
  | f + 1, c :: r =>
    match matchDelim op cl (c :: r) with
    | some (m, rest) => m :: findallDelimF op cl f rest
    | none => findallDelimF op cl f r

/-- All matches of the method-1/2 pattern in `l`. -/
def findallDelim (op cl : Char) (l : List Char) : List (List Char) :=
  findallDelimF op cl (l.length + 1) l

/-- `re.findall(r'\{.*?\}', text, re.DOTALL)` (method 3): from each `{`, the
lazy `.*?` stops at the first following `}`, whatever brackets lie between. -/
def findallLooseF : Nat → List Char → List (List Char)
  | 0, _ => []
  | _, [] => []
  | f + 1, c :: r =>
    if c = obrace then
      let pre := r.takeWhile (fun d => !(d = cbrace))
      match r.dropWhile (fun d => !(d = cbrace)) with
      | _ :: r2 => (obrace :: pre ++ [cbrace]) :: findallLooseF f r2
      | [] => findallLooseF f r
    else findallLooseF f r

/-- All matches of the method-3 pattern in `l`. -/
def findallLoose (l : List Char) : List (List Char) :=
  findallLooseF (l.length + 1) l

/-- `EnhancedJSONParser.extract_json_blocks`: the three candidate lists in
source order (objects, then arrays, then the loose object pattern). -/
def extract_json_blocks (t : List Char) : List (List Char) :=
  findallDelim obrace cbrace t ++ findallDelim osq csq t ++ findallLoose t

/-- Running bracket depth for the delimiter pair `(op, cl)`: `none` when the
depth ever drops below zero, otherwise the final depth.  A string is
balanced for `(op, cl)` exactly when `delimRun op cl 0 s = some 0`. -/
def delimRun (op cl : Char) : Int → List Char → Option Int
  | d, [] => some d
  | d, c :: r =>
    if c = op then delimRun op cl (d + 1) r
    else if c = cl then
      if d = 0 then none else delimRun op cl (d - 1) r
    else delimRun op cl d r

/-! ### Strict decoder: `try_parse_json` (a model of `json.loads`)

The JSON grammar as accepted by Python's strict `json.loads`, modelled for
the surface the pipeline exercises: objects, arrays, double-quoted strings
with the standard one-character escapes (`\uXXXX` escapes are not modelled
and are rejected), integers, and floats kept as literals; `true`/`false`/
`null`; strict whitespace handling; no trailing commas; leading zeros and
raw control characters in strings rejected.  The non-standard
`NaN`/`Infinity` extensions of Python's decoder are not modelled; no claim
touches them. -/

/-- JSON whitespace (space, tab, newline, carriage return). -/
def isJsonWs (c : Char) : Bool :=
  c = ' ' || c = Char.ofNat 9 || c = Char.ofNat 10 || c = Char.ofNat 13

/-- The literals `true`, `false`, `null`. -/
def trueLit : List Char := ['t', 'r', 'u', 'e']

/-- JSON `false`. -/
def falseLit : List Char := ['f', 'a', 'l', 's', 'e']

/-- JSON `null`. -/
def nullLit : List Char := ['n', 'u', 'l', 'l']

/-- JSON string escapes (`\uXXXX` not modelled: rejected). -/
def jsonEsc (c : Char) : Option Char :=
  if c = dq then some dq
  else if c = bslash then some bslash
  else if c = '/' then some '/'
  else if c = 'b' then some (Char.ofNat 8)
  else if c = 'f' then some (Char.ofNat 12)
  else if c = 'n' then some (Char.ofNat 10)
  else if c = 'r' then some (Char.ofNat 13)
  else if c = 't' then some (Char.ofNat 9)
  else none

/-- Scan a JSON string body after the opening quote; returns the decoded
content and the remainder after the closing quote. -/
def jsonStringRest : List Char → Option (List Char × List Char)
  | [] => none
  | c :: r =>
    if c = dq then some ([], r)
    else if c = bslash then
      match r with
      | e :: r2 =>
        match jsonEsc e with
        | some d =>
          match jsonStringRest r2 with
          | some (s, rest) => some (d :: s, rest)
          | none => none
        | none => none
      | [] => none
    else if c.toNat < 32 then none
    else
      match jsonStringRest r with
      | some (s, rest) => some (c :: s, rest)
      | none => none

/-- Digits to a natural number. -/
def digitsVal (ds : List Char) : Nat :=
  ds.foldl (fun a c => a * 10 + (c.toNat - 48)) 0

/-- Scan a JSON number: `-? int frac? exp?`; pure integers become `pyint`,
anything with a fraction or exponent becomes a `pyfloat` literal. -/
def jsonNumber (s : List Char) : Option (PyVal × List Char) :=
  let signed := match s with
    | c :: r => if c = '-' then (true, r) else (false, s)
    | [] => (false, s)
  match signed.2 with
  | [] => none
  | c :: _ =>
    if isDigitChar c then
      let intDigits := signed.2.takeWhile isDigitChar
      let s2 := signed.2.dropWhile isDigitChar
      if 1 < intDigits.length && c = '0' then none
      else
        let fracPart : Option (List Char × List Char) :=
          match s2 with
          | d :: r3 =>
            if d = '.' then
              match r3 with
              | d2 :: _ =>
                if isDigitChar d2 then
                  some ('.' :: r3.takeWhile isDigitChar, r3.dropWhile isDigitChar)
                else none
              | [] => none
            else some ([], s2)
          | [] => some ([], s2)
        match fracPart with
        | none => none
        | some (frac, s3) =>
          let expPart : Option (List Char × List Char) :=
            match s3 with
            | e :: r4 =>
              if e = 'e' || e = 'E' then
                let signedExp := match r4 with
                  | g :: r5 => if g = '+' || g = '-' then ([e, g], r5) else ([e], r4)
                  | [] => ([e], r4)
                match signedExp.2 with
                | d3 :: _ =>
                  if isDigitChar d3 then
                    some (signedExp.1 ++ signedExp.2.takeWhile isDigitChar,
                          signedExp.2.dropWhile isDigitChar)
                  else none
                | [] => none
              else some ([], s3)
            | [] => some ([], s3)
          match expPart with
          | none => none
          | some (ex, s4) =>
            if frac.isEmpty && ex.isEmpty then
              let v : Int := Int.ofNat (digitsVal intDigits)
              some (.pyint (if signed.1 then -v else v), s4)
            else
              some (.pyfloat ((if signed.1 then ['-'] else []) ++ intDigits ++ frac ++ ex), s4)
    else none

/-- Ordered-dict insertion with Python overwrite semantics: an existing key
keeps its position and receives the new value, a new key is appended. -/
def dictInsert (kvs : List (PyVal × PyVal)) (k v : PyVal) : List (PyVal × PyVal) :=
  match kvs with
  | [] => [(k, v)]
  | (k0, v0) :: rest =>
    if pyBeq k0 k then (k0, v) :: rest else (k0, v0) :: dictInsert rest k v

mutual

/-- A JSON value (with leading whitespace), returning the remainder. -/
def jsonVal : Nat → List Char → Option (PyVal × List Char)
  | 0, _ => none
  | f + 1, s =>
    match s.dropWhile isJsonWs with
    | [] => none
    | c :: r =>
      if c = obrace then
        match r.dropWhile isJsonWs with
        | c2 :: r2 =>
          if c2 = cbrace then some (.pydict [], r2)
          else jsonMembers f (c2 :: r2) []
        | [] => none
      else if c = osq then
        match r.dropWhile isJsonWs with
        | c2 :: r2 =>
          if c2 = csq then some (.pylist [], r2)
          else jsonItems f (c2 :: r2) []
        | [] => none
      else if c = dq then
        match jsonStringRest r with
        | some (str, rest) => some (.pystr str, rest)
        | none => none
      else if listStarts trueLit (c :: r) then some (.pybool true, (c :: r).drop 4)
      else if listStarts falseLit (c :: r) then some (.pybool false, (c :: r).drop 5)
      else if listStarts nullLit (c :: r) then some (.pynone, (c :: r).drop 4)
      else jsonNumber (c :: r)

/-- Members of a JSON object after the opening brace (non-empty case). -/
def jsonMembers : Nat → List Char → List (PyVal × PyVal) → Option (PyVal × List Char)
  | 0, _, _ => none
  | f + 1, s, acc =>
    match s.dropWhile isJsonWs with
    | c :: r =>
      if c = dq then
        match jsonStringRest r with
        | some (key, rest) =>
          match rest.dropWhile isJsonWs with
          | c2 :: r2 =>
            if c2 = ':' then
              match jsonVal f r2 with
              | some (v, rest2) =>
                let acc2 := dictInsert acc (.pystr key) v
                match rest2.dropWhile isJsonWs with
                | c3 :: r3 =>
                  if c3 = ',' then jsonMembers f r3 acc2
                  else if c3 = cbrace then some (.pydict acc2, r3)
                  else none
                | [] => none
              | none => none
            else none
          | [] => none
        | none => none
      else none
    | [] => none

/-- Items of a JSON array after the opening bracket (non-empty case). -/
def jsonItems : Nat → List Char → List PyVal → Option (PyVal × List Char)
  | 0, _, _ => none
  | f + 1, s, acc =>
    match jsonVal f s with
    | some (v, rest) =>
      match rest.dropWhile isJsonWs with
      | c :: r =>
        if c = ',' then jsonItems f r (acc ++ [v])
        else if c = csq then some (.pylist (acc ++ [v]), r)
        else none
      | [] => none
    | none => none

end

/-- `EnhancedJSONParser.try_parse_json`: `json.loads` wrapped to return
`none` on any decode error; the whole input (up to whitespace) must be
consumed. -/
def try_parse_json (s : List Char) : Option PyVal :=
  match jsonVal (2 * s.length + 2) s with
  | some (v, rest) => if (rest.dropWhile isJsonWs).isEmpty then some v else none
  | none => none

/-! ### Lenient decoder: `try_parse_with_ast`

The source first runs `json_str.replace("'", '"')` — for a one-character
pattern this is exactly a character-wise map — and then calls
`ast.literal_eval` with `except (ValueError, SyntaxError)`.  The latter is
modelled on the literal surface the pipeline can reach: dictionaries, sets,
lists, tuples (with Python's optional trailing commas), the empty-set call
`set()` (accepted by `literal_eval` since Python 3.9), double-quoted
strings (after the substitution no single quote can remain; unknown escapes
keep their backslash, as in CPython), decimal numbers with an optional
single leading sign (whitespace after the sign allowed, exponents and
leading/trailing-dot floats included, leading zeros only on a zero integer
or in floats, as in Python), and the capitalised keywords
`True`/`False`/`None`.

`literal_eval` works in two phases: `compile` first checks the whole
source (any syntax problem is a `SyntaxError`, caught by the wrapper),
then `_convert` builds the value and raises an *uncaught* `TypeError`
when a set member or dictionary key is unhashable (a list, set, dict, or a
tuple containing one); that exception propagates out of
`try_parse_with_ast` and out of `parse_response`.  `AstOutcome`
distinguishes the three results.  Prefixed string literals (`b'..'`,
`r'..'`, …), `\uXXXX`-style escapes, underscores in numbers,
hex/octal/binary integers, complex numbers and recursion-depth limits are
not modelled; no claim touches them. -/

/-- The quote substitution `json_str.replace("'", '"')`. -/
def quoteSubst (s : List Char) : List Char :=
  s.map (fun c => if c = squo then dq else c)

/-- Python `True`. -/
def pyTrueLit : List Char := ['T', 'r', 'u', 'e']

/-- Python `False`. -/
def pyFalseLit : List Char := ['F', 'a', 'l', 's', 'e']

/-- Python `None`. -/
def pyNoneLit : List Char := ['N', 'o', 'n', 'e']

/-- Python string escapes for the modelled surface; `none` means the escape
is kept verbatim (backslash plus character), as CPython does. -/
def pyEsc (c : Char) : Option Char :=
  if c = dq then some dq
  else if c = squo then some squo
  else if c = bslash then some bslash
  else if c = 'n' then some (Char.ofNat 10)
  else if c = 't' then some (Char.ofNat 9)
  else if c = 'r' then some (Char.ofNat 13)
  else if c = 'b' then some (Char.ofNat 8)
  else if c = 'f' then some (Char.ofNat 12)
  else if c = '0' then some (Char.ofNat 0)
  else none

/-- Scan a double-quoted Python string body after the opening quote.  A raw
newline ends the literal with an error; other characters stand for
themselves. -/
def pyStringRest : List Char → Option (List Char × List Char)
  | [] => none
  | c :: r =>
    if c = dq then some ([], r)
    else if c = bslash then
      match r with
      | e :: r2 =>
        match pyStringRest r2 with
        | some (s, rest) =>
          match pyEsc e with
          | some d => some (d :: s, rest)
          | none => some (bslash :: e :: s, rest)
        | none => none
      | [] => none
    else if c = Char.ofNat 10 then none
    else
      match pyStringRest r with
      | some (s, rest) => some (c :: s, rest)
      | none => none

/-- The optional exponent part of a Python float literal:
`(e|E)(+|-)?digits`; `some ([], s)` when no exponent marker is present. -/
def pyNumExp (s : List Char) : Option (List Char × List Char) :=
  match s with
  | e :: r =>
    if e = 'e' || e = 'E' then
      let se : List Char × List Char := match r with
        | g :: r2 => if g = '+' || g = '-' then ([e, g], r2) else ([e], r)
        | [] => ([e], r)
      match se.2 with
      | d :: _ =>
        if isDigitChar d then
          some (se.1 ++ se.2.takeWhile isDigitChar, se.2.dropWhile isDigitChar)
        else none
      | [] => none
    else some ([], s)
  | [] => some ([], s)

/-- The unsigned body of a Python number literal: either
`digits [. digits?] [exp]` or `. digits [exp]`.  Returns whether the
literal is an integer, its characters, and the remainder.  Python forbids
a leading zero only on a nonzero integer literal (`01` is an error, `00`
and `01.5` and `01e5` are fine). -/
def pyNumCore (s : List Char) : Option (Bool × List Char × List Char) :=
  match s with
  | [] => none
  | c :: r =>
    if isDigitChar c then
      let intDigits := s.takeWhile isDigitChar
      let s2 := s.dropWhile isDigitChar
      match s2 with
      | d :: r2 =>
        if d = '.' then
          let fracDigits := r2.takeWhile isDigitChar
          match pyNumExp (r2.dropWhile isDigitChar) with
          | some (ex, s4) => some (false, intDigits ++ '.' :: fracDigits ++ ex, s4)
          | none => none
        else if d = 'e' || d = 'E' then
          match pyNumExp s2 with
          | some (ex, s4) =>
            if ex.isEmpty then none else some (false, intDigits ++ ex, s4)
          | none => none
        else if 1 < intDigits.length && c = '0'
            && intDigits.any (fun x => !(x = '0')) then none
        else some (true, intDigits, s2)
      | [] =>
        if 1 < intDigits.length && c = '0'
            && intDigits.any (fun x => !(x = '0')) then none
        else some (true, intDigits, s2)
    else if c = '.' then
      match r with
      | d :: _ =>
        if isDigitChar d then
          let fracDigits := r.takeWhile isDigitChar
          match pyNumExp (r.dropWhile isDigitChar) with
          | some (ex, s4) => some (false, '.' :: fracDigits ++ ex, s4)
          | none => none
        else none
      | [] => none
    else none

/-- A Python number with at most one leading `+`/`-` (a unary operation on
the literal, so whitespace may follow the sign); integers become `pyint`
with the sign applied, floats a `pyfloat` literal. -/
def pyNumber (s : List Char) : Option (PyVal × List Char) :=
  let sgn : Nat × List Char := match s with
    | c :: r =>
      if c = '-' then (1, r.dropWhile isPyWs)
      else if c = '+' then (2, r.dropWhile isPyWs)
      else (0, s)
    | [] => (0, s)
  match pyNumCore sgn.2 with
  | some (isInt, lit, rest) =>
    if isInt then
      let v : Int := Int.ofNat (digitsVal lit)
      some (.pyint (if sgn.1 = 1 then -v else v), rest)
    else
      some (.pyfloat ((if sgn.1 = 1 then ['-'] else []) ++ lit), rest)
  | none => none

/-- Set-literal insertion (members are deduplicated, first occurrence kept). -/
def setInsert (xs : List PyVal) (v : PyVal) : List PyVal :=
  if xs.any (fun x => pyBeq x v) then xs else xs ++ [v]

/-- The identifier of the accepted empty-set call `set()`. -/
def pySetLit : List Char := ['s', 'e', 't']

mutual

/-- Python unhashability: lists, sets and dictionaries are unhashable, a
tuple is unhashable when one of its elements is. -/
def pyUnhashable : PyVal → Bool
  | .pylist _ => true
  | .pyset _ => true
  | .pydict _ => true
  | .pytuple xs => pyAnyUnhashable xs
  | _ => false

/-- Is some element of the list unhashable? -/
def pyAnyUnhashable : List PyVal → Bool
  | [] => false
  | x :: xs => pyUnhashable x || pyAnyUnhashable xs

end

mutual

/-- Does `_convert`'s construction of this value raise `TypeError`?  It
does exactly when somewhere in the tree a set has an unhashable member or
a dictionary an unhashable key. -/
def constructionRaises : PyVal → Bool
  | .pylist xs => listRaises xs
  | .pytuple xs => listRaises xs
  | .pyset xs => setRaises xs
  | .pydict kvs => dictRaises kvs
  | _ => false

/-- `constructionRaises` over sequence elements. -/
def listRaises : List PyVal → Bool
  | [] => false
  | x :: xs => constructionRaises x || listRaises xs

/-- A set member that is unhashable, or whose own construction raises. -/
def setRaises : List PyVal → Bool
  | [] => false
  | x :: xs => pyUnhashable x || constructionRaises x || setRaises xs

/-- A dictionary key that is unhashable, or a key or value whose own
construction raises. -/
def dictRaises : List (PyVal × PyVal) → Bool
  | [] => false
  | (k, v) :: rest =>
    pyUnhashable k || constructionRaises k || constructionRaises v || dictRaises rest

end

/-- The three observable outcomes of `try_parse_with_ast`: a returned
value, a caught `ValueError`/`SyntaxError` (the function returns `None`),
or an uncaught `TypeError` that propagates to the caller. -/
inductive AstOutcome where
  | ok : PyVal → AstOutcome
  | caught : AstOutcome
  | raisedTypeErr : AstOutcome

mutual

/-- A Python literal expression (with leading whitespace), remainder
returned. -/
def pyLit : Nat → List Char → Option (PyVal × List Char)
  | 0, _ => none
  | f + 1, s =>
    match s.dropWhile isPyWs with
    | [] => none
    | c :: r =>
      if c = obrace then
        match r.dropWhile isPyWs with
        | c2 :: r2 =>
          if c2 = cbrace then some (.pydict [], r2)
          else
            match pyLit f (c2 :: r2) with
            | some (e1, rest) =>
              match rest.dropWhile isPyWs with
              | c3 :: r3 =>
                if c3 = ':' then pyDictRest f r3 [] e1
                else if c3 = ',' then pySetRest f r3 (setInsert [] e1)
                else if c3 = cbrace then some (.pyset (setInsert [] e1), r3)
                else none
              | [] => none
            | none => none
        | [] => none
      else if c = osq then
        match r.dropWhile isPyWs with
        | c2 :: r2 =>
          if c2 = csq then some (.pylist [], r2)
          else pyListRest f (c2 :: r2) []
        | [] => none
      else if c = '(' then
        match r.dropWhile isPyWs with
        | c2 :: r2 =>
          if c2 = ')' then some (.pytuple [], r2)
          else
            match pyLit f (c2 :: r2) with
            | some (e1, rest) =>
              match rest.dropWhile isPyWs with
              | c3 :: r3 =>
                if c3 = ')' then some (e1, r3)
                else if c3 = ',' then pyTupleRest f r3 [e1]
                else none
              | [] => none
            | none => none
        | [] => none
      else if c = dq then
        match pyStringRest r with
        | some (str, rest) => some (.pystr str, rest)
        | none => none
      else if isDigitChar c || c = '-' || c = '+' || c = '.' then pyNumber (c :: r)
      else if listStarts pySetLit (c :: r) then
        match ((c :: r).drop 3).dropWhile isPyWs with
        | c2 :: r2 =>
          if c2 = '(' then
            match r2.dropWhile isPyWs with
            | c3 :: r3 => if c3 = ')' then some (.pyset [], r3) else none
            | [] => none
          else none
        | [] => none
      else if listStarts pyTrueLit (c :: r) then some (.pybool true, (c :: r).drop 4)
      else if listStarts pyFalseLit (c :: r) then some (.pybool false, (c :: r).drop 5)
      else if listStarts pyNoneLit (c :: r) then some (.pynone, (c :: r).drop 4)
      else none

/-- Dictionary members after `key :` has been consumed for `pendKey`. -/
def pyDictRest : Nat → List Char → List (PyVal × PyVal) → PyVal →
    Option (PyVal × List Char)
  | 0, _, _, _ => none
  | f + 1, s, acc, pendKey =>
    match pyLit f s with
    | some (v, rest) =>
      let acc2 := dictInsert acc pendKey v
      match rest.dropWhile isPyWs with
      | c :: r =>
        if c = cbrace then some (.pydict acc2, r)
        else if c = ',' then
          match r.dropWhile isPyWs with
          | c2 :: r2 =>
            if c2 = cbrace then some (.pydict acc2, r2)
            else
              match pyLit f (c2 :: r2) with
              | some (k, rest2) =>
                match rest2.dropWhile isPyWs with
                | c3 :: r3 =>
                  if c3 = ':' then pyDictRest f r3 acc2 k
                  else none
                | [] => none
              | none => none
          | [] => none
        else none
      | [] => none
    | none => none

/-- Set members after the first `elem ,`. -/
def pySetRest : Nat → List Char → List PyVal → Option (PyVal × List Char)
  | 0, _, _ => none
  | f + 1, s, acc =>
    match s.dropWhile isPyWs with
    | c :: r =>
      if c = cbrace then some (.pyset acc, r)
      else
        match pyLit f (c :: r) with
        | some (v, rest) =>
          let acc2 := setInsert acc v
          match rest.dropWhile isPyWs with
          | c2 :: r2 =>
            if c2 = cbrace then some (.pyset acc2, r2)
            else if c2 = ',' then pySetRest f r2 acc2
            else none
          | [] => none
        | none => none
    | [] => none

/-- List items (non-empty case), with Python's optional trailing comma. -/
def pyListRest : Nat → List Char → List PyVal → Option (PyVal × List Char)
  | 0, _, _ => none
  | f + 1, s, acc =>
    match s.dropWhile isPyWs with
    | c :: r =>
      if c = csq then some (.pylist acc, r)
      else
        match pyLit f (c :: r) with
        | some (v, rest) =>
          match rest.dropWhile isPyWs with
          | c2 :: r2 =>
            if c2 = csq then some (.pylist (acc ++ [v]), r2)
            else if c2 = ',' then pyListRest f r2 (acc ++ [v])
            else none
          | [] => none
        | none => none
    | [] => none

/-- Tuple items after the first `elem ,`. -/
def pyTupleRest : Nat → List Char → List PyVal → Option (PyVal × List Char)
  | 0, _, _ => none
  | f + 1, s, acc =>
    match s.dropWhile isPyWs with
    | c :: r =>
      if c = ')' then some (.pytuple acc, r)
      else
        match pyLit f (c :: r) with
        | some (v, rest) =>
          match rest.dropWhile isPyWs with
          | c2 :: r2 =>
            if c2 = ')' then some (.pytuple (acc ++ [v]), r2)
            else if c2 = ',' then pyTupleRest f r2 (acc ++ [v])
            else none
          | [] => none
        | none => none
    | [] => none

end

/-- `EnhancedJSONParser.try_parse_with_ast`: replace every single quote by
a double quote, then `ast.literal_eval`.  Any parse problem (including
trailing data) is a `SyntaxError`/`ValueError` raised in the compile
phase, caught by the wrapper; only when the whole source compiles does the
conversion phase run, and an unhashable set member or dictionary key then
raises an uncaught `TypeError`. -/
def try_parse_with_ast (s : List Char) : AstOutcome :=
  let s2 := quoteSubst s
  match pyLit (2 * s2.length + 2) s2 with
  | some (v, rest) =>
    if (rest.dropWhile isPyWs).isEmpty then
      if constructionRaises v then .raisedTypeErr else .ok v
    else .caught
  | none => .caught

/-! ### Score heuristic: `extract_scores_from_text` -/

/-- `re.findall(r'\b(\d+)\b', text)`: maximal digit runs delimited on both
sides by a word boundary.  A digit run preceded or followed by a word
character has no `\b` at any interior position either, so the scan can jump
past a rejected run; the boolean argument records whether the previous
character was a word character. -/
def scanNumTokens : Nat → Bool → List Char → List (List Char)
  | 0, _, _ => []
  | _, _, [] => []
  | f + 1, prevW, c :: r =>
    if isDigitChar c && !prevW then
      let run := c :: r.takeWhile isDigitChar
      let rest2 := r.dropWhile isDigitChar
      match rest2 with
      | [] => [run]
      | d :: _ =>
        if isWordChar d then scanNumTokens f true rest2
        else run :: scanNumTokens f true rest2
    else
      scanNumTokens f (isWordChar c) r

/-- All `\b(\d+)\b` tokens of `t`. -/
def numTokens (t : List Char) : List (List Char) :=
  scanNumTokens (t.length + 1) false t

/-- Keyword fragments tested (case-insensitively) by the heuristic. -/
def attitudeKw : List Char := "attitude".data

/-- Keyword `like`. -/
def likeKw : List Char := "like".data

/-- Keyword `intention`. -/
def intentionKw : List Char := "intention".data

/-- Keyword `purchase`. -/
def purchaseKw : List Char := "purchase".data

/-- `EnhancedJSONParser.extract_scores_from_text`: keep integer tokens with
value in `[1, 7]`; with an attitude keyword the first four go to the
attitude list (`nums[:4] if len(nums) >= 4 else nums`), with an
intention/purchase keyword positions five to seven go to the intention list
(`nums[4:7] if len(nums) >= 7 else nums[4:]`).  The source returns the two
lists in a dict under the keys `ad_attitude_scores` and
`purchase_intention_scores`; here they are returned as a pair in that
order. -/
def extract_scores_from_text (t : List Char) : List Nat × List Nat :=
  let numbers := numTokens t
  if numbers.isEmpty then ([], [])
  else
    let nums := (numbers.map digitsVal).filter (fun n => 1 ≤ n && n ≤ 7)
    let low := pyLower t
    let att :=
      if containsSub attitudeKw low || containsSub likeKw low then
        if 4 ≤ nums.length then nums.take 4 else nums
      else []
    let intent :=
      if containsSub intentionKw low || containsSub purchaseKw low then
        if 7 ≤ nums.length then (nums.drop 4).take 3 else nums.drop 4
      else []
    (att, intent)

/-! ### Pipeline: `parse_response`, `process_file`, statistics -/

/-- Method 4 of `parse_response`: build
`{'ad_type': 'unknown', **scores}` when at least one score list is
non-empty, else `None`. -/
def heuristicRecord (t : List Char) : Option PyVal :=
  let scores := extract_scores_from_text t
  if scores.1.isEmpty && scores.2.isEmpty then none
  else
    some (.pydict
      [(.pystr "ad_type".data, .pystr "unknown".data),
       (.pystr "ad_attitude_scores".data, .pylist (scores.1.map fun n => .pyint n)),
       (.pystr "purchase_intention_scores".data, .pylist (scores.2.map fun n => .pyint n))])

/-- The truthiness gate applied after each decode attempt
(`parsed = ...; if parsed: return parsed`). -/
def tryTruthy (o : Option PyVal) : Option PyVal :=
  match o with
  | some v => if truthy v then some v else none
  | none => none

/-- The observable outcome of `parse_response`: a normal return (`Some`
record or `None`), or an uncaught exception propagating to the caller. -/
inductive ParseOutcome where
  | ret : Option PyVal → ParseOutcome
  | raised : ParseOutcome

/-- Does the lenient-decode loop move past this block?  True when the
decode was caught or returned a falsy value; false when it returned a
truthy value (the loop returns it) or raised (the exception aborts
`parse_response`). -/
def astContinue (b : List Char) : Bool :=
  match try_parse_with_ast b with
  | .ok v => !truthy v
  | .caught => true
  | .raisedTypeErr => false

/-- The method-3 loop of `parse_response`
(`for block: parsed = self.try_parse_with_ast(block); if parsed: return
parsed`): the first truthy value returns, an uncaught `TypeError` aborts,
everything else moves on; an exhausted loop falls through. -/
def astLoop : List (List Char) → ParseOutcome
  | [] => .ret none
  | b :: bs =>
    match try_parse_with_ast b with
    | .raisedTypeErr => .raised
    | .ok v => if truthy v then .ret (some v) else astLoop bs
    | .caught => astLoop bs

/-- `EnhancedJSONParser.parse_response`: empty-after-strip input is
rejected; then the cleaned text is parsed directly, then every extracted
block with the strict decoder, then every block with the lenient decoder
(whose uncaught `TypeError` propagates), and finally the score heuristic
runs on the raw text. -/
def parse_response (t : List Char) : ParseOutcome :=
  if (pyStrip t).isEmpty then .ret none
  else
    let cleaned := clean_json_string t
    match tryTruthy (try_parse_json cleaned) with
    | some v => .ret (some v)
    | none =>
      let blocks := extract_json_blocks cleaned
      match blocks.findSome? (fun b => tryTruthy (try_parse_json b)) with
      | some v => .ret (some v)
      | none =>
        match astLoop blocks with
        | .ret (some v) => .ret (some v)
        | .raised => .raised
        | .ret none =>
          match heuristicRecord t with
          | some v => .ret (some v)
          | none => .ret none

/-- The strategy that settled an input (instrumentation of
`parse_response`'s control flow). -/
inductive Stage where
  | emptyIn : Stage
  | direct : Stage
  | blockJson : Stage
  | blockAst : Stage
  | astRaise : Stage
  | heurOk : Stage
  | heurFail : Stage
deriving DecidableEq

/-- `parse_response` together with the stage that produced its outcome; the
control flow is the same cascade as in `parse_response`. -/
def parse_response_traced (t : List Char) : ParseOutcome × Stage :=
  if (pyStrip t).isEmpty then (.ret none, .emptyIn)
  else
    let cleaned := clean_json_string t
    match tryTruthy (try_parse_json cleaned) with
    | some v => (.ret (some v), .direct)
    | none =>
      let blocks := extract_json_blocks cleaned
      match blocks.findSome? (fun b => tryTruthy (try_parse_json b)) with
      | some v => (.ret (some v), .blockJson)
      | none =>
        match astLoop blocks with
        | .ret (some v) => (.ret (some v), .blockAst)
        | .raised => (.raised, .astRaise)
        | .ret none =>
          match heuristicRecord t with
          | some v => (.ret (some v), .heurOk)
          | none => (.ret none, .heurFail)

/-- The failure message of `process_file` when `parse_response` recovers
nothing usable. -/
def noJsonMsg : List Char := "No valid JSON found".data

/-- The success message of `process_file`. -/
def successMsg : List Char := "Success".data

/-- Placeholder for the `str(e)` text of the `TypeError` raised by
`{**metadata, **parsed_json}` when `parse_response` returns a non-mapping
(set or list); the exact CPython message is irrelevant to every claim. -/
def mergeTypeErrMsg : List Char := "TypeError: not a mapping".data

/-- Placeholder for the `str(e)` text of the uncaught `TypeError` raised
inside `parse_response` by `literal_eval` on an unhashable set member or
dictionary key (CPython says `unhashable type: ...`); the exact text is
irrelevant to every claim. -/
def astTypeErrMsg : List Char := "TypeError: unhashable type".data

/-- `{**metadata, **parsed}`: metadata first, parsed values override. -/
def dictMerge (meta kvs : List (PyVal × PyVal)) : List (PyVal × PyVal) :=
  kvs.foldl (fun acc kv => dictInsert acc kv.1 kv.2) meta

/-- The pure core of `EnhancedJSONParser.process_file` (file reading is
replaced by the text argument, the metadata file by the `meta` argument):
returns the `(success, message, result)` triple.  An exception raised out
of `parse_response` is caught by the enclosing `except`, as is the
`TypeError` that `{**metadata, **parsed_json}` raises on a truthy
non-dict result. -/
def process_file (txt : List Char) (meta : List (PyVal × PyVal)) :
    Bool × List Char × Option PyVal :=
  match parse_response txt with
  | .raised => (false, astTypeErrMsg, none)
  | .ret none => (false, noJsonMsg, none)
  | .ret (some j) =>
    if truthy j then
      match j with
      | .pydict kvs => (true, successMsg, some (.pydict (dictMerge meta kvs)))
      | _ => (false, mergeTypeErrMsg, none)
    else (false, noJsonMsg, none)

/-- The process-scoped counters of `EnhancedJSONParser.__init__`. -/
structure Stats where
  total_processed : Nat
  successful : Nat
  failed : Nat
  error_types : List (List Char × Nat)

/-- Fresh statistics (`self.stats` right after `__init__`). -/
def initStats : Stats := ⟨0, 0, 0, []⟩

/-- `error_msg.split(':')[0] if ':' in error_msg else error_msg`. -/
def errKey (msg : List Char) : List Char :=
  if msg.any (fun c => c = ':') then msg.takeWhile (fun c => !(c = ':')) else msg

/-- `self.stats['error_types'][k] = self.stats['error_types'].get(k, 0) + 1`. -/
def bumpError (ets : List (List Char × Nat)) (k : List Char) : List (List Char × Nat) :=
  match ets with
  | [] => [(k, 1)]
  | (k0, n) :: rest => if k0 = k then (k0, n + 1) :: rest else (k0, n) :: bumpError rest k

/-- One iteration of the `process_experiment_directory` loop: increment
`total_processed`, then exactly one of `successful` / `failed` according to
the outcome of `process_file` (failures also feed the error histogram). -/
def processOne (st : Stats) (inp : List Char × List (PyVal × PyVal)) : Stats :=
  let st1 : Stats := { st with total_processed := st.total_processed + 1 }
  match process_file inp.1 inp.2 with
  | (true, _, _) => { st1 with successful := st1.successful + 1 }
  | (false, msg, _) =>
    { st1 with failed := st1.failed + 1, error_types := bumpError st1.error_types (errKey msg) }

/-- A batch run over a list of `(response text, metadata)` pairs starting
from fresh statistics (the counter-relevant core of
`process_experiment_directory`). -/
def runBatch (inps : List (List Char × List (PyVal × PyVal))) : Stats :=
  inps.foldl processOne initStats

/-! ### Helper lemmas -/

/-- Unfolding equation for `trimEnd` on a cons cell. -/
theorem trimEnd_cons (c : Char) (r : List Char) :
    trimEnd (c :: r) = match trimEnd r with
      | [] => if isPyWs c then [] else [c]
      | t => c :: t := rfl

/-- `trimEnd` is idempotent. -/
theorem trimEnd_idem (l : List Char) : trimEnd (trimEnd l) = trimEnd l := by
  induction l with
  | nil => rfl
  | cons c r ih =>
    rw [trimEnd_cons]
    cases h : trimEnd r with
    | nil =>
      by_cases hw : isPyWs c
      · simp [hw, trimEnd]
      · simp [hw, trimEnd]
    | cons x xs =>
      have ht : trimEnd (x :: xs) = x :: xs := by rw [← h, ih, h]
      simp only []
      rw [trimEnd_cons, ht]

/-- `trimEnd` keeps the head of its argument (or empties the list). -/
theorem trimEnd_cons_shape (c : Char) (r : List Char) :
    trimEnd (c :: r) = [] ∨ ∃ t, trimEnd (c :: r) = c :: t := by
  rw [trimEnd_cons]
  cases trimEnd r with
  | nil =>
    by_cases hw : isPyWs c
    · exact Or.inl (by simp [hw])
    · exact Or.inr ⟨[], by simp [hw]⟩
  | cons x xs => exact Or.inr ⟨x :: xs, rfl⟩

/-- The head of `dropWhile p l` falsifies `p`. -/
theorem dropWhile_head_false {p : Char → Bool} (l : List Char) (c : Char) (t : List Char)
    (h : l.dropWhile p = c :: t) : p c = false := by
  induction l with
  | nil => simp at h
  | cons a r ih =>
    rw [List.dropWhile_cons] at h
    by_cases ha : p a = true
    · rw [if_pos ha] at h; exact ih h
    · rw [if_neg ha] at h
      injection h with h1 _
      cases hab : p a with
      | true => exact absurd hab ha
      | false => rw [← h1]; exact hab

/-- `pyStrip` is idempotent. -/
theorem pyStrip_idem (l : List Char) : pyStrip (pyStrip l) = pyStrip l := by
  unfold pyStrip
  have hdw : (trimEnd (l.dropWhile isPyWs)).dropWhile isPyWs
      = trimEnd (l.dropWhile isPyWs) := by
    cases hm : l.dropWhile isPyWs with
    | nil => rfl
    | cons c t =>
      rcases trimEnd_cons_shape c t with h0 | ⟨t2, h2⟩
      · rw [h0]; rfl
      · rw [h2, List.dropWhile_cons]
        simp [dropWhile_head_false l c t hm]
  rw [hdw, trimEnd_idem]

/-- The sanitizer's output is `strip`-normalised. -/
theorem pyStrip_clean (t : List Char) :
    pyStrip (clean_json_string t) = clean_json_string t := by
  unfold clean_json_string
  exact pyStrip_idem _

/-! ### Claim C1 -/

/-- C1 (counterexample): three well-formed JSON inputs on which the claim
fails.  `\x7b\x7d` decodes to the empty (falsy) dictionary and `0e1` to
the falsy float `0.0`; the truthiness gate discards both, so the pipeline
returns `None`.  A string value containing a colon is corrupted by the
bare-key quoting rule, after which nothing parses. -/
theorem C1_counterexample :
    try_parse_json "\x7b\x7d".data = some (.pydict [])
    ∧ parse_response "\x7b\x7d".data = .ret none
    ∧ try_parse_json "0e1".data = some (.pyfloat "0e1".data)
    ∧ truthy (.pyfloat "0e1".data) = false
    ∧ parse_response "0e1".data = .ret none
    ∧ try_parse_json "\x7b\"a\": \"b:c\"\x7d".data
        = some (.pydict [(.pystr ['a'], .pystr "b:c".data)])
    ∧ parse_response "\x7b\"a\": \"b:c\"\x7d".data = .ret none :=
  ⟨rfl, rfl, rfl, rfl, rfl, rfl, rfl⟩

/-- C1 (amended): for every input that the sanitizer leaves unchanged and
that the strict decoder accepts with a truthy value `v`, the pipeline
returns `Success` with exactly `v` — already-valid data is preserved only
under those two extra conditions. -/
theorem C1_valid_json_preserved (x : List Char) (v : PyVal)
    (hfix : clean_json_string x = x) (hjson : try_parse_json x = some v)
    (htr : truthy v = true) : parse_response x = .ret (some v) := by
  have hstrip : pyStrip x = x := by
    conv_lhs => rw [← hfix]
    rw [pyStrip_clean, hfix]
  have hne : ¬(pyStrip x).isEmpty = true := by
    rw [hstrip]
    intro hemp
    have hx : x = [] := List.isEmpty_iff.mp hemp
    have hnone : try_parse_json ([] : List Char) = none := rfl
    rw [hx, hnone] at hjson
    cases hjson
  simp only [parse_response]
  rw [if_neg hne, hfix, hjson]
  simp [tryTruthy, htr]

/-- C1 (witness): the amended theorem applied to the concrete well-formed
input of spec scenario 1. -/
theorem C1_valid_json_preserved_witness :
    parse_response "\x7b\"a\": 1, \"b\": 2\x7d".data
      = .ret (some (.pydict [(.pystr ['a'], .pyint 1), (.pystr ['b'], .pyint 2)])) :=
  C1_valid_json_preserved _ _ rfl rfl rfl

/-! ### Claim C4 -/

/-- C4 (counterexample): sanitization is not idempotent.  On `,,(brace)`
the trailing-comma rule deletes one comma per pass: the first pass yields
`,(brace)`, a second pass yields `(brace)`. -/
theorem C4_counterexample :
    clean_json_string (clean_json_string ",,\x7d".data)
      ≠ clean_json_string ",,\x7d".data := by decide

/-- C4 (amended): the sanitizer is total and deterministic and its final
`strip` step is idempotent (its output is strip-normalised), but the full
rule chain is not idempotent: re-sanitizing `,,(brace)` changes the string
again. -/
theorem C4_sanitize_not_idempotent :
    (∀ l, pyStrip (pyStrip l) = pyStrip l)
    ∧ (∀ t, pyStrip (clean_json_string t) = clean_json_string t)
    ∧ clean_json_string (clean_json_string ",,\x7d".data)
        ≠ clean_json_string ",,\x7d".data :=
  ⟨pyStrip_idem, pyStrip_clean, by decide⟩

/-! ### Claim C7 -/

/-- C7: on the scenario-4 input the pipeline falls through to the score
heuristic, which keeps the seven in-range integer tokens, sends the first
four to the attitude list and positions five to seven to the intention
list, and wraps them with the `unknown` ad-type marker. -/
theorem C7_heuristic_scenario :
    parse_response "The ad attitude scores are 5 6 7 4 and intention is 2 3 1".data
      = .ret (some (.pydict
          [(.pystr "ad_type".data, .pystr "unknown".data),
           (.pystr "ad_attitude_scores".data,
              .pylist [.pyint 5, .pyint 6, .pyint 7, .pyint 4]),
           (.pystr "purchase_intention_scores".data,
              .pylist [.pyint 2, .pyint 3, .pyint 1])]))
    ∧ extract_scores_from_text
        "The ad attitude scores are 5 6 7 4 and intention is 2 3 1".data
      = ([5, 6, 7, 4], [2, 3, 1]) :=
  ⟨rfl, rfl⟩

/-! ### Claim C9 -/

/-- C9 (counterexample): the empty input and an unrecoverable prose input
produce byte-for-byte the same failure triple — there is no distinguished
`EmptyInput` error kind in the code. -/
theorem C9_counterexample :
    process_file [] [] = (false, noJsonMsg, none)
    ∧ process_file "Sorry, I cannot answer.".data [] = (false, noJsonMsg, none) :=
  ⟨rfl, rfl⟩

/-- C9 (amended): every empty-or-whitespace-only input fails, but with the
generic `No valid JSON found` message shared with all other unrecoverable
inputs rather than a dedicated `EmptyInput` kind. -/
theorem C9_empty_input_generic (t : List Char) (meta : List (PyVal × PyVal))
    (h : (pyStrip t).isEmpty = true) :
    process_file t meta = (false, noJsonMsg, none) := by
  unfold process_file parse_response
  rw [if_pos h]

/-- C9 (witness): the amended theorem applied to a whitespace-only input. -/
theorem C9_empty_input_generic_witness :
    process_file "  \n\t ".data [] = (false, noJsonMsg, none) :=
  C9_empty_input_generic _ _ (by decide)

/-! ### Claim C10 -/

/-- Each loop iteration adds one to `total_processed` and one to exactly
one of `successful` / `failed`. -/
theorem processOne_counts (st : Stats) (i : List Char × List (PyVal × PyVal)) :
    (processOne st i).total_processed = st.total_processed + 1
    ∧ (processOne st i).successful + (processOne st i).failed
        = st.successful + st.failed + 1 := by
  unfold processOne
  rcases h : process_file i.1 i.2 with ⟨b, msg, res⟩
  cases b <;> simp <;> omega

/-- Folding the loop preserves the counter invariant. -/
theorem runBatch_aux (inps : List (List Char × List (PyVal × PyVal))) :
    ∀ st : Stats, st.successful + st.failed = st.total_processed →
      (inps.foldl processOne st).successful + (inps.foldl processOne st).failed
        = (inps.foldl processOne st).total_processed := by
  induction inps with
  | nil => intro st h; simpa using h
  | cons i rest ih =>
    intro st h
    simp only [List.foldl_cons]
    apply ih
    rcases processOne_counts st i with ⟨h1, h2⟩
    omega

/-- C10: after any batch run from fresh statistics,
`successful + failed = total_processed`, and each processed input bumps the
total exactly once and exactly one of the outcome counters. -/
theorem C10_stats_invariant :
    (∀ inps, (runBatch inps).successful + (runBatch inps).failed
        = (runBatch inps).total_processed)
    ∧ (∀ st i, (processOne st i).total_processed = st.total_processed + 1
        ∧ (processOne st i).successful + (processOne st i).failed
            = st.successful + st.failed + 1) :=
  ⟨fun inps => runBatch_aux inps initStats rfl, processOne_counts⟩

/-! ### Claim C2 -/

/-- Delimiter-free characters do not change the running depth. -/
theorem delimRun_append_nonDelim (op cl : Char) (mid : List Char)
    (hmid : ∀ c ∈ mid, nonDelim op cl c = true) (d : Int) (rest : List Char) :
    delimRun op cl d (mid ++ rest) = delimRun op cl d rest := by
  induction mid generalizing d with
  | nil => rfl
  | cons c m ih =>
    have hc := hmid c (List.mem_cons_self c m)
    have hcop : ¬c = op := by
      intro hh; rw [hh] at hc; simp [nonDelim] at hc
    have hccl : ¬c = cl := by
      intro hh; rw [hh] at hc; simp [nonDelim] at hc
    simp only [List.cons_append, delimRun]
    rw [if_neg hcop, if_neg hccl]
    exact ih (fun x hx => hmid x (List.mem_cons_of_mem _ hx)) d

/-- `delimRun` step on an opening delimiter. -/
theorem delimRun_cons_op (op cl : Char) (d : Int) (r : List Char) :
    delimRun op cl d (op :: r) = delimRun op cl (d + 1) r := by
  simp [delimRun]

/-- `delimRun` step on a closing delimiter at positive depth. -/
theorem delimRun_cons_cl (op cl : Char) (hne : ¬cl = op) (d : Int) (hd : ¬d = 0)
    (r : List Char) : delimRun op cl d (cl :: r) = delimRun op cl (d - 1) r := by
  simp only [delimRun]
  rw [if_neg hne]
  simp [hd]

/-- Whatever `delimTail` accepts is depth-balanced when read at depth 1. -/
theorem delimTail_balanced (op cl : Char) (hop : ¬op = cl) :
    ∀ f l t rest, delimTail op cl f l = some (t, rest) → delimRun op cl 1 t = some 0 := by
  intro f
  induction f with
  | zero => intro l t rest h; cases h
  | succ f ih =>
    intro l t rest h
    match l with
    | [] => cases h
    | c :: r =>
      simp only [delimTail] at h
      split at h
      next hc =>
        injection h with h1
        have ht : [cl] = t := congrArg Prod.fst h1
        rw [← ht, delimRun_cons_cl op cl (fun hh => hop hh.symm) 1 (by norm_num)]
        norm_num [delimRun]
      next hc =>
        split at h
        next hco =>
          split at h
          next c2 r2 hdw =>
            split at h
            next hc2 =>
              split at h
              next t2 rest2 hrec =>
                injection h with h1
                have ht : op :: (List.takeWhile (nonDelim op cl) r
                    ++ (cl :: (List.takeWhile (nonDelim op cl) r2 ++ t2))) = t := by
                  have h2 := congrArg Prod.fst h1
                  simpa using h2
                rw [← ht, delimRun_cons_op]
                rw [delimRun_append_nonDelim op cl _
                  (fun x hx => List.mem_takeWhile_imp hx)]
                rw [delimRun_cons_cl op cl (fun hh => hop hh.symm) _ (by norm_num)]
                have h21 : (1 + 1 - 1 : Int) = 1 := by norm_num
                rw [h21]
                rw [delimRun_append_nonDelim op cl _
                  (fun x hx => List.mem_takeWhile_imp hx)]
                exact ih _ _ _ hrec
              next hrec => cases h
            next hc2 => cases h
          next hdw => cases h
        next hco => cases h

/-- Every match of the one-level object/array pattern is balanced for its
delimiter pair. -/
theorem matchDelim_balanced (op cl : Char) (hop : ¬op = cl) (l m rest : List Char)
    (h : matchDelim op cl l = some (m, rest)) : delimRun op cl 0 m = some 0 := by
  match l with
  | [] => cases h
  | c :: r =>
    simp only [matchDelim] at h
    split at h
    next hc =>
      split at h
      next t rest2 hdt =>
        injection h with h1
        have hm : op :: (List.takeWhile (nonDelim op cl) r ++ t) = m := by
          have h2 := congrArg Prod.fst h1
          simpa using h2
        rw [← hm, delimRun_cons_op]
        have h01 : (0 + 1 : Int) = 1 := by norm_num
        rw [h01]
        rw [delimRun_append_nonDelim op cl _ (fun x hx => List.mem_takeWhile_imp hx)]
        exact delimTail_balanced op cl hop _ _ _ _ hdt
      next hdt => cases h
    next hc => cases h

/-- Every candidate produced by the method-1/2 scan is balanced. -/
theorem findallDelimF_balanced (op cl : Char) (hop : ¬op = cl) :
    ∀ f l m, m ∈ findallDelimF op cl f l → delimRun op cl 0 m = some 0 := by
  intro f
  induction f with
  | zero => intro l m h; simp [findallDelimF] at h
  | succ f ih =>
    intro l m h
    match l with
    | [] => simp [findallDelimF] at h
    | c :: r =>
      simp only [findallDelimF] at h
      split at h
      next m0 rest hm =>
        rcases List.mem_cons.mp h with h1 | h2
        · subst h1; exact matchDelim_balanced op cl hop _ _ _ hm
        · exact ih rest m h2
      next hm => exact ih r m h

/-- C2 (counterexample): on a depth-2 object, the method-3 pattern
`\{.*?\}` emits a candidate that stops at the first closing brace and is
therefore unbalanced for the portion it bounds. -/
theorem C2_counterexample :
    "\x7b\"a\":\x7b\"b\":1\x7d".data
      ∈ extract_json_blocks "\x7b\"a\":\x7b\"b\":1\x7d\x7d".data
    ∧ delimRun obrace cbrace 0 "\x7b\"a\":\x7b\"b\":1\x7d".data ≠ some 0 := by
  constructor
  · decide
  · decide

/-- C2 (amended): the locator is total and regex-based, not depth-tracking.
Candidates from the object and array patterns are balanced for their own
delimiter pair, but the loose method-3 pattern can emit unbalanced
candidates, and a depth-3 object is not matched as a whole by the object
pattern (only its depth-2 suffix is). -/
theorem C2_locator_partial_balance :
    (∀ s m, m ∈ findallDelim obrace cbrace s → delimRun obrace cbrace 0 m = some 0)
    ∧ (∀ s m, m ∈ findallDelim osq csq s → delimRun osq csq 0 m = some 0)
    ∧ "\x7b\"a\":\x7b\"b\":1\x7d".data
        ∈ extract_json_blocks "\x7b\"a\":\x7b\"b\":1\x7d\x7d".data
    ∧ delimRun obrace cbrace 0 "\x7b\"a\":\x7b\"b\":1\x7d".data ≠ some 0
    ∧ ¬"\x7b\"a\":\x7b\"b\":\x7b\"c\":1\x7d\x7d\x7d".data
          ∈ findallDelim obrace cbrace "\x7b\"a\":\x7b\"b\":\x7b\"c\":1\x7d\x7d\x7d".data := by
  refine ⟨?_, ?_, by decide, by decide, by decide⟩
  · intro s m h
    exact findallDelimF_balanced obrace cbrace (by decide) _ s m h
  · intro s m h
    exact findallDelimF_balanced osq csq (by decide) _ s m h

/-- C2 (witness): the balance statement applied to a concrete candidate. -/
theorem C2_locator_partial_balance_witness :
    delimRun obrace cbrace 0 "\x7b\"x\": 1\x7d".data = some 0 :=
  C2_locator_partial_balance.1 "\x7b\"x\": 1\x7d".data "\x7b\"x\": 1\x7d".data (by decide)

/-! ### Claim C8 -/

/-- The bare-key quoting scan leaves colon-free strings unchanged. -/
theorem quoteKeysF_id_of_no_colon :
    ∀ f l, (∀ c ∈ l, ¬c = ':') → quoteKeysF f l = l := by
  intro f
  induction f with
  | zero => intro l _; cases l <;> rfl
  | succ f ih =>
    intro l h
    match l with
    | [] => rfl
    | c :: r =>
      simp only [quoteKeysF]
      split
      next hw =>
        split
        next c2 r2 hdw =>
          have hmem : c2 ∈ r := (List.dropWhile_sublist _).subset
            (by rw [hdw]; exact List.mem_cons_self c2 r2)
          rw [if_neg (h c2 (List.mem_cons_of_mem c hmem))]
          rw [ih r (fun x hx => h x (List.mem_cons_of_mem c hx))]
        next hdw =>
          rw [ih r (fun x hx => h x (List.mem_cons_of_mem c hx))]
      next hw =>
        rw [ih r (fun x hx => h x (List.mem_cons_of_mem c hx))]

/-- C8 (counterexample): a double-quoted string value containing a colon is
corrupted by the bare-key quoting rule (the claim demands such values be
unchanged). -/
theorem C8_counterexample :
    quoteKeys "\x7b\"a\": \"b:c\"\x7d".data ≠ "\x7b\"a\": \"b:c\"\x7d".data := by decide

/-- C8 (amended): the rule wraps a bare word immediately followed by a
colon and does not re-quote an already-quoted key (the quote character
before the colon blocks the match), and it leaves colon-free text
unchanged; but it fires inside string values as well, so a value with a
word character immediately before a colon is corrupted. -/
theorem C8_quote_keys_behaviour :
    (∀ l, (∀ c ∈ l, ¬c = ':') → quoteKeys l = l)
    ∧ quoteKeys "\x7ba: 1, \"b\": 2\x7d".data = "\x7b\"a\": 1, \"b\": 2\x7d".data
    ∧ quoteKeys "\x7b\"a\": \"b:c\"\x7d".data = "\x7b\"a\": \"\"b\":c\"\x7d".data :=
  ⟨fun l h => quoteKeysF_id_of_no_colon _ l h, by decide, by decide⟩

/-- C8 (witness): the colon-free clause applied to a concrete string. -/
theorem C8_quote_keys_behaviour_witness :
    quoteKeys "\x7b\"xy\"\x7d".data = "\x7b\"xy\"\x7d".data :=
  C8_quote_keys_behaviour.1 "\x7b\"xy\"\x7d".data (by decide)

/-! ### Claim C5 -/

/-- No single quote survives the quote substitution. -/
theorem quoteSubst_no_squo (s : List Char) (c : Char) (hc : c ∈ quoteSubst s) :
    ¬c = squo := by
  intro hcq
  subst hcq
  rcases List.mem_map.mp hc with ⟨a, _, ha⟩
  by_cases haq : a = squo
  · rw [if_pos haq] at ha
    exact absurd ha (by decide)
  · rw [if_neg haq] at ha
    exact haq ha

/-- C5 (counterexample): the substitution rewrites the apostrophe inside an
already-double-quoted string value, and the corrupted block then fails the
lenient decode. -/
theorem C5_counterexample :
    quoteSubst "\x7b\"a\": \"it\x27s\"\x7d".data = "\x7b\"a\": \"it\"s\"\x7d".data
    ∧ "\x7b\"a\": \"it\"s\"\x7d".data ≠ "\x7b\"a\": \"it\x27s\"\x7d".data
    ∧ try_parse_with_ast "\x7b\"a\": \"it\x27s\"\x7d".data = AstOutcome.caught :=
  ⟨rfl, by decide, rfl⟩

/-- C5 (amended): the substitution is naive — it replaces every single
quote, including characters inside double-quoted string literals (no single
quote survives it), and a double-quoted value containing an apostrophe,
which the literal grammar itself accepts unchanged, is corrupted into an
undecodable block. -/
theorem C5_subst_replaces_all_quotes :
    (∀ s c, c ∈ quoteSubst s → ¬c = squo)
    ∧ pyLit 28 "\x7b\"a\": \"it\x27s\"\x7d".data
        = some (.pydict [(.pystr ['a'], .pystr ['i', 't', squo, 's'])], [])
    ∧ try_parse_with_ast "\x7b\"a\": \"it\x27s\"\x7d".data = AstOutcome.caught :=
  ⟨quoteSubst_no_squo, rfl, rfl⟩

/-- C5 (witness): the no-surviving-quote clause applied to a concrete
character of a concrete substituted string. -/
theorem C5_subst_replaces_all_quotes_witness :
    ¬('x' : Char) = squo :=
  C5_subst_replaces_all_quotes.1 ['x'] 'x' (by decide)

/-! ### Claim C3 -/

/-- The lenient decoder rejects any input whose first character is an ASCII
letter other than the keyword heads `T`/`F`/`N`, the head `s` of the
accepted empty-set call `set()`, and the string prefix letters
`b`/`B`/`r`/`R`/`u`/`U` (which CPython's `literal_eval` accepts as
prefixed string literals and which are therefore excluded from this
statement): bare identifiers and function calls fail with a caught
error. -/
theorem tryAst_rejects_identifier_heads (c : Char) (s : List Char)
    (hAl : isAsciiLetter c = true)
    (hkw : ¬c ∈ (['T', 'F', 'N', 's', 'b', 'B', 'r', 'R', 'u', 'U'] : List Char)) :
    try_parse_with_ast (c :: s) = AstOutcome.caught := by
  have hsq : ¬c = squo := fun h => absurd (h ▸ hAl) (by decide)
  have hobr : ¬c = obrace := fun h => absurd (h ▸ hAl) (by decide)
  have hosq : ¬c = osq := fun h => absurd (h ▸ hAl) (by decide)
  have hpar : ¬c = '(' := fun h => absurd (h ▸ hAl) (by decide)
  have hdq : ¬c = dq := fun h => absurd (h ▸ hAl) (by decide)
  have hmin : ¬c = '-' := fun h => absurd (h ▸ hAl) (by decide)
  have hplu : ¬c = '+' := fun h => absurd (h ▸ hAl) (by decide)
  have hdot : ¬c = '.' := fun h => absurd (h ▸ hAl) (by decide)
  have hT : ¬('T' = c) := fun h => hkw (by simp [← h])
  have hF : ¬('F' = c) := fun h => hkw (by simp [← h])
  have hN : ¬('N' = c) := fun h => hkw (by simp [← h])
  have hS : ¬('s' = c) := fun h => hkw (by simp [← h])
  have hws : isPyWs c = false := by
    cases hw : isPyWs c
    · rfl
    · exfalso
      simp only [isPyWs, Bool.or_eq_true, decide_eq_true_eq] at hw
      rcases hw with ((((h | h) | h) | h) | h) | h <;>
        exact absurd (h ▸ hAl) (by decide)
  have hdg : isDigitChar c = false := by
    cases hd : isDigitChar c
    · rfl
    · exfalso
      simp only [isDigitChar, Bool.and_eq_true, decide_eq_true_eq] at hd
      simp only [isAsciiLetter, Bool.or_eq_true, Bool.and_eq_true,
        decide_eq_true_eq] at hAl
      omega
  have hq : quoteSubst (c :: s) = c :: quoteSubst s := by
    simp only [quoteSubst, List.map_cons]
    rw [if_neg hsq]
  have hpy : ∀ f qs, pyLit (f + 1) (c :: qs) = none := by
    intro f qs
    simp only [pyLit, List.dropWhile_cons, hws]
    simp [hobr, hosq, hpar, hdq, hdg, hmin, hplu, hdot, hT, hF, hN, hS,
      pyTrueLit, pyFalseLit, pyNoneLit, pySetLit, listStarts]
  unfold try_parse_with_ast
  rw [hq]
  show (match pyLit (2 * (c :: quoteSubst s).length + 2) (c :: quoteSubst s) with
    | some (v, rest) =>
      if (List.dropWhile isPyWs rest).isEmpty = true then
        if constructionRaises v then AstOutcome.raisedTypeErr else AstOutcome.ok v
      else AstOutcome.caught
    | none => AstOutcome.caught) = AstOutcome.caught
  have hpy2 : pyLit (2 * (c :: quoteSubst s).length + 2) (c :: quoteSubst s) = none :=
    hpy (2 * (c :: quoteSubst s).length + 1) (quoteSubst s)
  rw [hpy2]

/-- C3 (counterexample): inside the pipeline's own block surface the
lenient decoder accepts non-JSON Python literal syntax — a set literal and
the empty-set call `set()` — and the whole pipeline then surfaces Python
sets as its result; the claim says any input outside the
JSON-with-single-quotes surface yields `None`. -/
theorem C3_counterexample :
    try_parse_with_ast "\x7b1, 2\x7d".data = AstOutcome.ok (.pyset [.pyint 1, .pyint 2])
    ∧ parse_response "\x7b1, 2\x7d".data = ParseOutcome.ret (some (.pyset [.pyint 1, .pyint 2]))
    ∧ try_parse_with_ast "[set()]".data = AstOutcome.ok (.pylist [.pyset []])
    ∧ parse_response "[set()]".data = ParseOutcome.ret (some (.pylist [.pyset []])) :=
  ⟨rfl, rfl, rfl, rfl⟩

/-- C3 (amended): after the global quote substitution the decoder accepts
Python literal syntax, not the JSON-with-single-quotes surface: set and
tuple literals, the capitalised `True`/`False`/`None` and the empty-set
call `set()` are accepted, JSON's lowercase `true` is rejected, and
other function calls or bare identifiers with any other letter head
(except the `b/B/r/R/u/U` string prefixes, not modelled) are rejected
with a caught error. -/
theorem C3_lenient_is_python_literals :
    try_parse_with_ast "\x7b1, 2\x7d".data = AstOutcome.ok (.pyset [.pyint 1, .pyint 2])
    ∧ try_parse_with_ast "(1, 2)".data = AstOutcome.ok (.pytuple [.pyint 1, .pyint 2])
    ∧ try_parse_with_ast "[True]".data = AstOutcome.ok (.pylist [.pybool true])
    ∧ try_parse_with_ast "[set()]".data = AstOutcome.ok (.pylist [.pyset []])
    ∧ try_parse_with_ast "[true]".data = AstOutcome.caught
    ∧ try_parse_with_ast "f(1)".data = AstOutcome.caught
    ∧ (∀ c s, isAsciiLetter c = true →
        ¬c ∈ (['T', 'F', 'N', 's', 'b', 'B', 'r', 'R', 'u', 'U'] : List Char) →
        try_parse_with_ast (c :: s) = AstOutcome.caught) :=
  ⟨rfl, rfl, rfl, rfl, rfl, rfl, tryAst_rejects_identifier_heads⟩

/-- C3 (witness): the rejection clause applied to a concrete identifier. -/
theorem C3_lenient_is_python_literals_witness :
    try_parse_with_ast ('g' :: "oo".data) = AstOutcome.caught :=
  C3_lenient_is_python_literals.2.2.2.2.2.2 'g' "oo".data (by decide) (by decide)

/-! ### Claim C6 -/

/-- The lenient-decode loop falls through exactly when every block lets it
move on (no truthy value, no uncaught `TypeError`). -/
theorem astLoop_ret_none_iff (bs : List (List Char)) :
    astLoop bs = ParseOutcome.ret none ↔ ∀ b ∈ bs, astContinue b = true := by
  induction bs with
  | nil => simp [astLoop]
  | cons b rest ih =>
    simp only [astLoop, List.mem_cons]
    cases h : try_parse_with_ast b with
    | raisedTypeErr =>
      constructor
      · intro hh
        exact ParseOutcome.noConfusion hh
      · intro hh
        have hb := hh b (Or.inl rfl)
        simp [astContinue, h] at hb
    | caught =>
      constructor
      · intro hh x hx
        rcases hx with hx | hx
        · subst hx
          simp [astContinue, h]
        · exact (ih.mp hh) x hx
      · intro hh
        exact ih.mpr (fun x hx => hh x (Or.inr hx))
    | ok v =>
      by_cases ht : truthy v
      · simp only [ht, eq_self_iff_true, if_true]
        constructor
        · intro hh
          injection hh with hh2
          cases hh2
        · intro hh
          have hb := hh b (Or.inl rfl)
          simp [astContinue, h, ht] at hb
      · simp only [ht, if_false]
        constructor
        · intro hh x hx
          rcases hx with hx | hx
          · subst hx
            simp [astContinue, h, ht]
          · exact (ih.mp hh) x hx
        · intro hh
          exact ih.mpr (fun x hx => hh x (Or.inr hx))

/-- C6 (counterexample): the strict decoder succeeds (with the falsy empty
dictionary) on a candidate block, yet the heuristic still runs and wins —
refuting both the "only if every decode failed" direction and "the first
strategy to succeed is terminal".  And on a set containing a dictionary
the lenient decoder raises an uncaught `TypeError`, so `parse_response`
aborts: although no strategy produced a value, the heuristic is never
invoked. -/
theorem C6_counterexample :
    "\x7b\x7d".data ∈ extract_json_blocks (clean_json_string "attitude \x7b\x7d 5 5 5 5".data)
    ∧ try_parse_json "\x7b\x7d".data = some (.pydict [])
    ∧ (parse_response_traced "attitude \x7b\x7d 5 5 5 5".data).2 = Stage.heurOk
    ∧ parse_response "\x7b\x7b\x7d\x7d".data = ParseOutcome.raised
    ∧ (parse_response_traced "\x7b\x7b\x7d\x7d".data).2 = Stage.astRaise := by
  refine ⟨by decide, rfl, rfl, rfl, rfl⟩

/-- C6 (amended): the traced pipeline agrees with `parse_response`; the
heuristic is reached exactly when the input is non-empty after stripping,
neither the whole-text strict decode nor any per-block strict decode
produced a truthy value, and every block let the lenient loop move on
(no truthy value and no uncaught `TypeError`); and a truthy whole-text
decode is terminal with stage `direct`. -/
theorem C6_stage_order :
    (∀ t, (parse_response_traced t).1 = parse_response t)
    ∧ (∀ t, ((parse_response_traced t).2 = Stage.heurOk
          ∨ (parse_response_traced t).2 = Stage.heurFail)
        ↔ ((pyStrip t).isEmpty = false
          ∧ tryTruthy (try_parse_json (clean_json_string t)) = none
          ∧ (∀ b ∈ extract_json_blocks (clean_json_string t),
              tryTruthy (try_parse_json b) = none)
          ∧ (∀ b ∈ extract_json_blocks (clean_json_string t),
              astContinue b = true)))
    ∧ (∀ t v, (pyStrip t).isEmpty = false →
        tryTruthy (try_parse_json (clean_json_string t)) = some v →
        parse_response t = ParseOutcome.ret (some v)
          ∧ (parse_response_traced t).2 = Stage.direct) := by
  refine ⟨?_, ?_, ?_⟩
  · intro t
    simp only [parse_response, parse_response_traced]
    by_cases h0 : (pyStrip t).isEmpty = true
    · rw [if_pos h0, if_pos h0]
    · rw [if_neg h0, if_neg h0]
      cases h1 : tryTruthy (try_parse_json (clean_json_string t)) with
      | some v => rfl
      | none =>
        cases h2 : (extract_json_blocks (clean_json_string t)).findSome?
            (fun b => tryTruthy (try_parse_json b)) with
        | some v => rfl
        | none =>
          cases h3 : astLoop (extract_json_blocks (clean_json_string t)) with
          | raised => rfl
          | ret o =>
            cases o with
            | some v => rfl
            | none =>
              cases h4 : heuristicRecord t with
              | some v => rfl
              | none => rfl
  · intro t
    simp only [parse_response_traced]
    by_cases h0 : (pyStrip t).isEmpty = true
    · rw [if_pos h0]
      constructor
      · intro h
        rcases h with h | h <;> exact Stage.noConfusion h
      · rintro ⟨hne, -, -, -⟩
        rw [h0] at hne
        cases hne
    · rw [if_neg h0]
      have hne : (pyStrip t).isEmpty = false := by
        cases hh : (pyStrip t).isEmpty
        · rfl
        · exact absurd hh h0
      cases h1 : tryTruthy (try_parse_json (clean_json_string t)) with
      | some v =>
        constructor
        · intro h
          rcases h with h | h <;> exact Stage.noConfusion h
        · rintro ⟨-, h2, -, -⟩
          cases h2
      | none =>
        cases h2 : (extract_json_blocks (clean_json_string t)).findSome?
            (fun b => tryTruthy (try_parse_json b)) with
        | some v =>
          constructor
          · intro h
            rcases h with h | h <;> exact Stage.noConfusion h
          · rintro ⟨-, -, hb, -⟩
            have hnone : (extract_json_blocks (clean_json_string t)).findSome?
                (fun b => tryTruthy (try_parse_json b)) = none :=
              List.findSome?_eq_none_iff.mpr hb
            rw [h2] at hnone
            cases hnone
        | none =>
          cases h3 : astLoop (extract_json_blocks (clean_json_string t)) with
          | raised =>
            constructor
            · intro h
              rcases h with h | h <;> exact Stage.noConfusion h
            · rintro ⟨-, -, -, hb⟩
              have hnone : astLoop (extract_json_blocks (clean_json_string t))
                  = ParseOutcome.ret none := (astLoop_ret_none_iff _).mpr hb
              rw [h3] at hnone
              cases hnone
          | ret o =>
            cases o with
            | some v =>
              constructor
              · intro h
                rcases h with h | h <;> exact Stage.noConfusion h
              · rintro ⟨-, -, -, hb⟩
                have hnone : astLoop (extract_json_blocks (clean_json_string t))
                    = ParseOutcome.ret none := (astLoop_ret_none_iff _).mpr hb
                rw [h3] at hnone
                injection hnone with h5
                cases h5
            | none =>
              have hb1 : ∀ b ∈ extract_json_blocks (clean_json_string t),
                  tryTruthy (try_parse_json b) = none := by
                intro b hb
                exact List.findSome?_eq_none_iff.mp h2 b hb
              have hb2 : ∀ b ∈ extract_json_blocks (clean_json_string t),
                  astContinue b = true := (astLoop_ret_none_iff _).mp h3
              constructor
              · intro _
                exact ⟨hne, rfl, hb1, hb2⟩
              · intro _
                cases h4 : heuristicRecord t with
                | some v => exact Or.inl rfl
                | none => exact Or.inr rfl
  · intro t v h0 h1
    have h0' : ¬(pyStrip t).isEmpty = true := by
      intro hh
      rw [h0] at hh
      cases hh
    constructor
    · simp only [parse_response]
      rw [if_neg h0', h1]
    · simp only [parse_response_traced]
      rw [if_neg h0', h1]

/-- C6 (witness): the short-circuit clause applied to a concrete input that
the strict decoder settles directly. -/
theorem C6_stage_order_witness :
    parse_response "\x7b\"a\": 1\x7d".data
      = ParseOutcome.ret (some (.pydict [(.pystr ['a'], .pyint 1)]))
    ∧ (parse_response_traced "\x7b\"a\": 1\x7d".data).2 = Stage.direct :=
  C6_stage_order.2.2 "\x7b\"a\": 1\x7d".data _ (by decide) rfl
